import Mathlib

/- Shallow embedding of the Chinook SQLite MCP server
   (mcp_local_server_agent/server): SQL statement classification, the
   transaction scope, bounded writes, the bearer-token auth middleware,
   table-name resolution, working-copy management and the structured
   tools. Python strings are modelled as lists of characters; machine
   floats in prices and totals are modelled as rationals. -/

abbrev Str := List Char

/-- Default whitespace of Python str.strip and of the regex class backslash-s
    (ASCII portion, which is all the server ever feeds these functions). -/
def isPySpace (c : Char) : Bool :=
  c = ' ' || c = '\t' || c = '\n' || c = '\r' || c = '\x0b' || c = '\x0c'

/-- Python str.strip with no arguments. -/
def pyStrip (s : Str) : Str :=
  ((s.dropWhile isPySpace).reverse.dropWhile isPySpace).reverse

/-- A regex word character (ASCII portion), as used by the word-boundary
    assertion in the classifier regexes. -/
def isWordChar (c : Char) : Bool :=
  c.isAlphanum || c = '_'

def lowerStr (s : Str) : Str := s.map Char.toLower

/-- db/client.py _single_statement: allow a semicolon only as the final
    character of the stripped string. -/
def singleStatement (sql : Str) : Bool :=
  decide (';' ∉ (pyStrip sql).dropLast)

/-- True when the rest of the input sits at a regex word boundary. -/
def atBoundary : Str → Bool
  | [] => true
  | c :: _ => !isWordChar c

/-- Matcher compiled from the anchored classifier regexes of db/client.py:
    optional leading whitespace, then one of the given lower-case keywords
    case-insensitively, then a word boundary. -/
def keywordMatch (kws : List Str) (s : Str) : Bool :=
  let t := s.dropWhile isPySpace
  kws.any fun kw =>
    lowerStr (t.take kw.length) = kw && atBoundary (t.drop kw.length)

def selectKws : List Str := ["select".toList]

def writeKws : List Str :=
  ["insert".toList, "update".toList, "delete".toList, "replace".toList]

/-- db/client.py is_select. -/
def is_select (sql : Str) : Bool :=
  keywordMatch selectKws sql && singleStatement sql

/-- db/client.py is_write. -/
def is_write (sql : Str) : Bool :=
  keywordMatch writeKws sql && singleStatement sql

/-- Declarative reading of one keyword alternative of the classifier
    regexes: some all-whitespace prefix, then a case variant of the
    keyword, then a word boundary. -/
def matchesKeyword (kw s : Str) : Prop :=
  ∃ ws kwp rest, s = ws ++ kwp ++ rest ∧ ws.all isPySpace = true ∧
    lowerStr kwp = kw ∧ atBoundary rest = true

/-- Exceptions raised by the embedded code. -/
inductive PyErr
  | valueError
  | integrityError
  | runtimeError
  deriving DecidableEq, Repr, BEq

/-- Events on the connection acquired by Database.transaction. -/
inductive TxEvent
  | connect
  | commit
  | rollback
  | close
  deriving DecidableEq, Repr, BEq

/-- Outcome of one tool invocation: the connection events that happened,
    the database state afterwards, and the returned value or the
    propagated exception. -/
structure TxRun (DB E A : Type) where
  events : List TxEvent
  db : DB
  result : Except E A

/-- db/client.py Database.transaction: connect, run the body, commit on
    normal return, roll back (restoring the prior state) and re-raise on
    any exception, and close on every exit path. -/
def transaction {DB E A : Type} (db : DB) (fn : DB → DB × Except E A) :
    TxRun DB E A :=
  match fn db with
  | (db2, .ok a) => ⟨[.connect, .commit, .close], db2, .ok a⟩
  | (_, .error e) => ⟨[.connect, .rollback, .close], db, .error e⟩

def maxWriteRows : Nat := 10000

/-- db/client.py execute_write: run the statement, then fail with a
    capacity ValueError when it affected more rows than the cap.
    A mutating statement is modelled as a function from the database
    state to the new state and the affected-row count. -/
def execute_write {DB : Type} (stmt : DB → DB × Nat) (db : DB) :
    DB × Except PyErr Nat :=
  let p := stmt db
  if p.2 > maxWriteRows then (p.1, .error .valueError) else (p.1, .ok p.2)

/-- surface/tools.py run_sql: classifier gate, then a read inside one
    transaction. A read statement is modelled as a function from the
    state to column names and rows. -/
def run_sql {DB Row : Type} (qexec : DB → List Str × List Row) (query : Str)
    (db : DB) : TxRun DB PyErr (List Str × List Row × Nat) :=
  if !is_select query then ⟨[], db, .error .valueError⟩
  else
    transaction db fun d =>
      let p := qexec d
      (d, .ok (p.1, p.2, p.2.length))

/-- surface/tools.py run_sql_write: classifier gate, then execute_write
    inside one transaction. -/
def run_sql_write {DB : Type} (stmt : DB → DB × Nat) (query : Str)
    (db : DB) : TxRun DB PyErr Nat :=
  if !is_write query then ⟨[], db, .error .valueError⟩
  else transaction db fun d => execute_write stmt d

/-- C1: a semicolon in the trimmed body anywhere but the final position
    forces Invalid classification, and both raw-SQL tools reject the
    string before opening a transaction, leaving the state unchanged. -/
theorem multi_statement_rejected {DB Row : Type}
    (qexec : DB → List Str × List Row) (stmt : DB → DB × Nat)
    (sql : Str) (db : DB) (h : ';' ∈ (pyStrip sql).dropLast) :
    is_select sql = false ∧ is_write sql = false ∧
    run_sql qexec sql db = ⟨[], db, .error .valueError⟩ ∧
    run_sql_write stmt sql db = ⟨[], db, .error .valueError⟩ := by
  have hss : singleStatement sql = false := by
    simp [singleStatement, h]
  have h1 : is_select sql = false := by
    simp [is_select, hss]
  have h2 : is_write sql = false := by
    simp [is_write, hss]
  refine ⟨h1, h2, ?_, ?_⟩
  · simp [run_sql, h1]
  · simp [run_sql_write, h2]

theorem multi_statement_rejected_witness :
    ';' ∈ (pyStrip "select 1; drop table t".toList).dropLast ∧
    (is_select "select 1; drop table t".toList = false ∧
     is_write "select 1; drop table t".toList = false ∧
     run_sql (fun _ : Unit => ([], ([] : List Unit))) "select 1; drop table t".toList () =
       ⟨[], (), .error .valueError⟩ ∧
     run_sql_write (fun d : Unit => (d, 0)) "select 1; drop table t".toList () =
       ⟨[], (), .error .valueError⟩) :=
  ⟨by decide,
   multi_statement_rejected (fun _ => ([], [])) (fun d => (d, 0))
     "select 1; drop table t".toList () (by decide)⟩

/-- C5: the transaction scope performs exactly one terminal action
    (commit exactly on normal return, rollback exactly on an exception,
    re-raising the same exception and restoring the prior state) and
    closes the connection exactly once, as the last event, on every exit
    path. -/
theorem transaction_spec {DB E A : Type} (db : DB)
    (fn : DB → DB × Except E A) :
    (transaction db fn).events.count .close = 1 ∧
    (transaction db fn).events.count .commit +
      (transaction db fn).events.count .rollback = 1 ∧
    (transaction db fn).events.getLast? = some .close ∧
    (∀ a, (fn db).2 = .ok a →
      transaction db fn = ⟨[.connect, .commit, .close], (fn db).1, .ok a⟩) ∧
    (∀ e, (fn db).2 = .error e →
      transaction db fn = ⟨[.connect, .rollback, .close], db, .error e⟩) := by
  rcases hfn : fn db with ⟨db2, r⟩
  cases r with
  | ok a =>
      have ht : transaction db fn = ⟨[.connect, .commit, .close], db2, .ok a⟩ := by
        simp [transaction, hfn]
      refine ⟨by rw [ht]; rfl, by rw [ht]; rfl, by rw [ht]; rfl, ?_, ?_⟩
      · intro a2 ha
        injection ha with h
        subst h
        exact ht
      · intro e he
        simp at he
  | error e =>
      have ht : transaction db fn = ⟨[.connect, .rollback, .close], db, .error e⟩ := by
        simp [transaction, hfn]
      refine ⟨by rw [ht]; rfl, by rw [ht]; rfl, by rw [ht]; rfl, ?_, ?_⟩
      · intro a2 ha
        simp at ha
      · intro e2 he
        injection he with h
        subst h
        exact ht

theorem transaction_spec_witness :
    (transaction 0 (fun n : Nat => (n + 1, (Except.ok 5 : Except PyErr Nat)))).events.count .close = 1 ∧
    transaction 0 (fun n : Nat => (n + 1, (Except.ok 5 : Except PyErr Nat))) =
      ⟨[.connect, .commit, .close], 1, .ok 5⟩ ∧
    transaction 0 (fun n : Nat => (n + 1, (Except.error .valueError : Except PyErr Nat))) =
      ⟨[.connect, .rollback, .close], 0, .error .valueError⟩ :=
  ⟨(transaction_spec 0 _).1,
   (transaction_spec 0 _).2.2.2.1 5 rfl,
   (transaction_spec 0 _).2.2.2.2 PyErr.valueError rfl⟩

/-- C2: a write accepted by the classifier that would affect more than
    10000 rows fails with the capacity error and the enclosing
    transaction rolls the state back to exactly the pre-call state; one
    affecting at most 10000 rows commits and returns the affected-row
    count. -/
theorem run_sql_write_capacity {DB : Type} (stmt : DB → DB × Nat)
    (query : Str) (db : DB) (hq : is_write query = true) :
    ((stmt db).2 > maxWriteRows →
      run_sql_write stmt query db =
        ⟨[.connect, .rollback, .close], db, .error .valueError⟩) ∧
    ((stmt db).2 ≤ maxWriteRows →
      run_sql_write stmt query db =
        ⟨[.connect, .commit, .close], (stmt db).1, .ok (stmt db).2⟩) := by
  constructor
  · intro hgt
    simp [run_sql_write, hq, transaction, execute_write, hgt]
  · intro hle
    have : ¬ (stmt db).2 > maxWriteRows := not_lt.mpr hle
    simp [run_sql_write, hq, transaction, execute_write, this]

theorem run_sql_write_capacity_witness :
    run_sql_write (fun n : Nat => (n + 1, 10001)) "delete from t".toList 7 =
      ⟨[.connect, .rollback, .close], 7, .error .valueError⟩ ∧
    run_sql_write (fun n : Nat => (n + 1, 3)) "delete from t".toList 7 =
      ⟨[.connect, .commit, .close], 8, .ok 3⟩ :=
  ⟨(run_sql_write_capacity (fun n => (n + 1, 10001)) "delete from t".toList 7
      (by decide)).1 (by decide),
   (run_sql_write_capacity (fun n => (n + 1, 3)) "delete from t".toList 7
      (by decide)).2 (by decide)⟩

/-- auth.py extract_bearer_token: the text after the literal prefix
    "Bearer ", when present. -/
def extract_bearer_token (hv : Option Str) : Option Str :=
  match hv with
  | none => none
  | some v =>
    if "Bearer ".toList.isPrefixOf v then some (v.drop 7) else none

/-- Result of the middleware dispatch: either the request is forwarded
    to the inner application (call_next, hence the tool surface) or it is
    answered directly with a status code and a JSON object body modelled
    as a key-value list. -/
inductive AuthOutcome
  | next
  | denied (status : Nat) (body : List (Str × Str))
  deriving DecidableEq, Repr

def rstripSlashes (s : Str) : Str :=
  (s.reverse.dropWhile (fun c => c = '/')).reverse

/-- auth.py BearerAuthMiddleware: the stored mount path is the configured
    one with trailing slashes removed, or the root path if that leaves
    nothing. -/
def normMount (mount : Str) : Str :=
  let m := rstripSlashes mount
  if m.isEmpty then "/".toList else m

/-- auth.py BearerAuthMiddleware.dispatch: no-op without a (non-empty)
    token; otherwise requests at or under the mount path require an
    Authorization header whose extracted bearer token equals the
    configured one, else a 401 JSON response is returned. -/
def bearerDispatch (token : Option Str) (mount : Str) (path : Str)
    (authHeader : Option Str) : AuthOutcome :=
  match token with
  | none => .next
  | some t =>
    if t.isEmpty then .next
    else
      let m := normMount mount
      if path = m || (m ++ "/".toList).isPrefixOf path then
        if extract_bearer_token authHeader = some t then .next
        else .denied 401 [("error".toList, "unauthorized".toList)]
      else .next

/-- app.py installs the middleware with mount_path "/mcp". -/
def mcpMount : Str := "/mcp".toList

theorem extract_bearer_eq_iff (hv : Option Str) (t : Str) :
    extract_bearer_token hv = some t ↔ hv = some ("Bearer ".toList ++ t) := by
  cases hv with
  | none => simp [extract_bearer_token]
  | some v =>
    simp only [extract_bearer_token, Option.some.injEq]
    constructor
    · intro h
      by_cases hp : "Bearer ".toList.isPrefixOf v
      · rw [if_pos hp] at h
        obtain ⟨rest, hrest⟩ := List.isPrefixOf_iff_prefix.mp hp
        simp only [Option.some.injEq] at h
        subst hrest
        rw [show (7 : Nat) = ("Bearer ".toList : List Char).length from rfl,
          List.drop_left] at h
        rw [h]
      · rw [if_neg hp] at h
        exact absurd h (by simp)
    · intro h
      subst h
      have hp : "Bearer ".toList.isPrefixOf ("Bearer ".toList ++ t) :=
        List.isPrefixOf_iff_prefix.mpr (List.prefix_append _ _)
      rw [if_pos hp, show (7 : Nat) = ("Bearer ".toList : List Char).length from rfl,
        List.drop_left]

/-- C3: with no configured token (absent or empty) every request passes
    through unchanged; with a configured token, a request whose path is
    at or nested under the mount path "/mcp" reaches the tool surface
    exactly when its Authorization header is literally "Bearer " followed
    by the token, is otherwise answered 401 with the JSON body
    error=unauthorized, and a request outside the mount path is never
    checked. -/
theorem bearer_auth_spec (token : Option Str) (path : Str)
    (hdr : Option Str) :
    ((token = none ∨ token = some []) →
      bearerDispatch token mcpMount path hdr = .next) ∧
    (∀ t, token = some t → t ≠ [] →
      ((path = mcpMount ∨ (mcpMount ++ "/".toList).isPrefixOf path) →
        ((bearerDispatch token mcpMount path hdr = .next ↔
          hdr = some ("Bearer ".toList ++ t)) ∧
         (hdr ≠ some ("Bearer ".toList ++ t) →
          bearerDispatch token mcpMount path hdr =
            .denied 401 [("error".toList, "unauthorized".toList)]))) ∧
      (¬(path = mcpMount ∨ (mcpMount ++ "/".toList).isPrefixOf path) →
        bearerDispatch token mcpMount path hdr = .next)) := by
  have hm : normMount mcpMount = mcpMount := by decide
  constructor
  · rintro (rfl | rfl)
    · rfl
    · rfl
  · rintro t rfl hne
    have hte : t.isEmpty = false := by
      cases t with
      | nil => exact absurd rfl hne
      | cons c cs => rfl
    constructor
    · intro hpath
      have hcond :
          (decide (path = normMount mcpMount) ||
            (normMount mcpMount ++ "/".toList).isPrefixOf path) = true := by
        rw [hm, Bool.or_eq_true]
        rcases hpath with h | h
        · exact Or.inl (decide_eq_true h)
        · exact Or.inr h
      constructor
      · constructor
        · intro hnext
          by_cases hx : extract_bearer_token hdr = some t
          · exact (extract_bearer_eq_iff hdr t).mp hx
          · exfalso
            have : bearerDispatch (some t) mcpMount path hdr =
                .denied 401 [("error".toList, "unauthorized".toList)] := by
              simp only [bearerDispatch, hte, Bool.false_eq_true, if_false,
                hcond, if_true, if_neg hx]
            rw [this] at hnext
            exact absurd hnext (by simp)
        · intro hh
          have hx : extract_bearer_token hdr = some t :=
            (extract_bearer_eq_iff hdr t).mpr hh
          simp only [bearerDispatch, hte, Bool.false_eq_true, if_false,
            hcond, if_true, if_pos hx]
      · intro hh
        have hx : extract_bearer_token hdr ≠ some t := fun hc =>
          hh ((extract_bearer_eq_iff hdr t).mp hc)
        simp only [bearerDispatch, hte, Bool.false_eq_true, if_false,
          hcond, if_true, if_neg hx]
    · intro hpath
      have hcond :
          (decide (path = normMount mcpMount) ||
            (normMount mcpMount ++ "/".toList).isPrefixOf path) = false := by
        rw [hm]
        push_neg at hpath
        rw [Bool.or_eq_false_iff]
        exact ⟨decide_eq_false hpath.1, Bool.eq_false_iff.mpr hpath.2⟩
      simp only [bearerDispatch, hte, Bool.false_eq_true, if_false, hcond,
        Bool.false_eq_true, if_false]

theorem bearer_auth_spec_witness :
    bearerDispatch none mcpMount "/mcp/messages".toList none = .next ∧
    (bearerDispatch (some "s3cret".toList) mcpMount "/mcp/messages".toList
        (some "Bearer s3cret".toList) = .next ↔
      some "Bearer s3cret".toList = some ("Bearer ".toList ++ "s3cret".toList)) ∧
    bearerDispatch (some "s3cret".toList) mcpMount "/mcp/messages".toList
        (some "Bearer wrong".toList) =
      .denied 401 [("error".toList, "unauthorized".toList)] ∧
    bearerDispatch (some "s3cret".toList) mcpMount "/health".toList none = .next :=
  ⟨(bearer_auth_spec none "/mcp/messages".toList none).1 (Or.inl rfl),
   ((bearer_auth_spec (some "s3cret".toList) "/mcp/messages".toList
        (some "Bearer s3cret".toList)).2 "s3cret".toList rfl (by decide)).1
      (Or.inr (by decide)) |>.1,
   ((bearer_auth_spec (some "s3cret".toList) "/mcp/messages".toList
        (some "Bearer wrong".toList)).2 "s3cret".toList rfl (by decide)).1
      (Or.inr (by decide)) |>.2 (by decide),
   ((bearer_auth_spec (some "s3cret".toList) "/health".toList none).2
      "s3cret".toList rfl (by decide)).2 (by decide)⟩

/-- surface/tools.py _has_table: probe the schema catalog for an exact
    name match, then for a case-insensitive match. The catalog is the
    list of table names in sqlite_master. -/
def has_table (tables : List Str) (name : Str) : Bool :=
  tables.any (fun t => t = name) ||
    tables.any (fun t => lowerStr t = lowerStr name)

/-- surface/tools.py _pick_table: first candidate for which _has_table
    holds; RuntimeError when none does. -/
def pick_table (tables : List Str) : List Str → Except PyErr Str
  | [] => .error .runtimeError
  | c :: cs => if has_table tables c then .ok c else pick_table tables cs

instance {e a : Type} [DecidableEq e] [DecidableEq a] :
    DecidableEq (Except e a) := fun x y =>
  match x, y with
  | .ok v, .ok w =>
    if h : v = w then .isTrue (by rw [h])
    else .isFalse (fun hc => h (Except.ok.inj hc))
  | .error v, .error w =>
    if h : v = w then .isTrue (by rw [h])
    else .isFalse (fun hc => h (Except.error.inj hc))
  | .ok _, .error _ => .isFalse (fun hc => Except.noConfusion hc)
  | .error _, .ok _ => .isFalse (fun hc => Except.noConfusion hc)

structure TableNames where
  customers : Str
  invoices : Str
  invoice_items : Str
  deriving DecidableEq, Repr

/-- surface/tools.py register, startup part: resolve the three logical
    table roles from their candidate names. -/
def resolveTableNames (tables : List Str) : Except PyErr TableNames := do
  let c ← pick_table tables ["customers".toList, "Customer".toList]
  let i ← pick_table tables ["invoices".toList, "Invoice".toList]
  let l ← pick_table tables ["invoice_items".toList, "InvoiceLine".toList]
  return ⟨c, i, l⟩

/-- surface/tools.py register: the tool decorators run only after the
    table roles resolve; a resolution failure propagates out of register
    and no tool is registered. -/
def registeredTools (tables : List Str) : List Str :=
  match resolveTableNames tables with
  | .ok _ =>
    ["list_tables".toList, "get_table_info".toList, "run_sql".toList,
     "run_sql_write".toList, "insert_customer".toList,
     "update_customer_email".toList, "top_customers".toList,
     "create_invoice".toList]
  | .error _ => []

/-- C8 counterexample: with catalog ["Customers"], candidate list
    ["customers", "Customers"] has an exact match in its second entry,
    yet _pick_table returns the first candidate, which matches only
    case-insensitively — exact matches are not preferred across
    candidates. -/
theorem pick_table_counterexample :
    pick_table ["Customers".toList]
        ["customers".toList, "Customers".toList] = .ok "customers".toList ∧
    "Customers".toList ∈ ["Customers".toList] ∧
    "customers".toList ∉ ["Customers".toList] := by
  refine ⟨rfl, by decide, by decide⟩

/-- C8 (amended): _pick_table returns the first candidate, in the given
    order, that the catalog contains either exactly or case-insensitively
    (an earlier case-insensitive-only candidate wins over a later exact
    one); when no candidate matches either way it raises RuntimeError,
    and a resolution failure at startup leaves the tool registry empty. -/
theorem pick_table_spec (tables cands : List Str) :
    (pick_table tables cands =
      match cands.find? (has_table tables) with
      | some c => .ok c
      | none => .error .runtimeError) ∧
    (∀ c, pick_table tables cands = .ok c →
      c ∈ cands ∧ has_table tables c = true) ∧
    (∀ e, resolveTableNames tables = .error e →
      registeredTools tables = []) := by
  refine ⟨?_, ?_, ?_⟩
  · induction cands with
    | nil => rfl
    | cons c cs ih =>
      by_cases h : has_table tables c = true
      · rw [List.find?_cons_of_pos _ h]
        simp only [pick_table, if_pos h]
      · rw [List.find?_cons_of_neg _ h]
        simp only [pick_table, if_neg h]
        exact ih
  · induction cands with
    | nil => intro c hc; simp [pick_table] at hc
    | cons c cs ih =>
      intro c2 hc
      by_cases h : has_table tables c
      · rw [pick_table, if_pos h] at hc
        injection hc with h2
        subst h2
        exact ⟨List.mem_cons_self _ _, h⟩
      · rw [pick_table, if_neg h] at hc
        obtain ⟨hmem, hht⟩ := ih c2 hc
        exact ⟨List.mem_cons_of_mem _ hmem, hht⟩
  · intro e he
    unfold registeredTools
    rw [he]

theorem pick_table_spec_witness :
    ("Invoice".toList ∈ ["invoices".toList, "Invoice".toList] ∧
      has_table ["Invoice".toList] "Invoice".toList = true) ∧
    registeredTools [] = [] :=
  ⟨(pick_table_spec ["Invoice".toList]
      ["invoices".toList, "Invoice".toList]).2.1 "Invoice".toList (by decide),
   (pick_table_spec [] []).2.2 PyErr.runtimeError (by decide)⟩

/-- A flat file system: contents stored per path. -/
abbrev FS := Str → Option Str

/-- Writing one file (shutil.copy2 destination side). -/
def fsWrite (fs : FS) (p v : Str) : FS :=
  fun q => if q = p then some v else fs q

/-- db/init.py: the fixed working file name inside the working
    directory. -/
def workingPathOf (workingDir : Str) : Str :=
  workingDir ++ "/chinook.work.sqlite".toList

/-- db/init.py ensure_working_copy: copy base over the working file when
    persist is off or the working file does not exist, then return both
    paths. Copying a missing base file raises (modelled as none);
    directory creation is not modelled. -/
def ensure_working_copy (fs : FS) (basePath workingDir : Str)
    (persist : Bool) : Option (FS × Str × Str) :=
  let wp := workingPathOf workingDir
  if !persist || (fs wp).isNone then
    match fs basePath with
    | none => none
    | some content => some (fsWrite fs wp content, basePath, wp)
  else some (fs, basePath, wp)

/-- C9: when persist is false or no working file exists, the base
    contents are copied onto the working path and nothing else changes;
    when persist is true and the working file exists, the file system is
    untouched; the call returns the working path (with the base path),
    and the base file is never written. -/
theorem ensure_working_copy_spec (fs : FS) (basePath workingDir : Str)
    (persist : Bool) (content : Str) (hb : fs basePath = some content) :
    ∃ fs2, ensure_working_copy fs basePath workingDir persist =
        some (fs2, basePath, workingPathOf workingDir) ∧
      ((persist = false ∨ fs (workingPathOf workingDir) = none) →
        fs2 (workingPathOf workingDir) = some content ∧
        ∀ q, q ≠ workingPathOf workingDir → fs2 q = fs q) ∧
      (persist = true → ∀ w, fs (workingPathOf workingDir) = some w →
        fs2 = fs) ∧
      fs2 basePath = fs basePath := by
  by_cases hc : (!persist || (fs (workingPathOf workingDir)).isNone) = true
  · refine ⟨fsWrite fs (workingPathOf workingDir) content, ?_, ?_, ?_, ?_⟩
    · simp only [ensure_working_copy, hc, if_true, hb]
    · intro _
      constructor
      · simp [fsWrite]
      · intro q hq
        simp [fsWrite, hq]
    · intro hp w hw
      rw [hp] at hc
      simp [hw] at hc
    · by_cases he : basePath = workingPathOf workingDir
      · rw [hb]
        simp [fsWrite, he, he ▸ hb]
      · simp [fsWrite, he]
  · have hp : persist = true := by
      cases persist with
      | false => simp at hc
      | true => rfl
    have hw : (fs (workingPathOf workingDir)).isNone = false := by
      cases hmm : fs (workingPathOf workingDir) with
      | none => rw [hp] at hc; simp [hmm] at hc
      | some w => simp
    refine ⟨fs, ?_, ?_, ?_, rfl⟩
    · simp only [ensure_working_copy, hc, if_false]
      rfl
    · rintro (h1 | h2)
      · rw [h1] at hp; exact absurd hp (by simp)
      · rw [h2] at hw; simp at hw
    · intro _ w _
      rfl

theorem ensure_working_copy_spec_witness :
    ∃ fs2,
      ensure_working_copy
          (fun p => if p = "/data/base.sqlite".toList
            then some "basebytes".toList else none)
          "/data/base.sqlite".toList "/tmp/work".toList false =
        some (fs2, "/data/base.sqlite".toList,
          workingPathOf "/tmp/work".toList) ∧
      fs2 (workingPathOf "/tmp/work".toList) = some "basebytes".toList ∧
      fs2 "/data/base.sqlite".toList = some "basebytes".toList := by
  obtain ⟨fs2, h1, h2, _, h4⟩ := ensure_working_copy_spec
    (fun p => if p = "/data/base.sqlite".toList
      then some "basebytes".toList else none)
    "/data/base.sqlite".toList "/tmp/work".toList false
    "basebytes".toList (by decide)
  refine ⟨fs2, h1, (h2 (Or.inl rfl)).1, ?_⟩
  rw [h4]
  decide

/-- A row of the customers table (columns used by the tools). -/
structure Customer where
  id : Int
  firstName : Str
  lastName : Str
  email : Str
  city : Option Str
  country : Option Str
  deriving DecidableEq, Repr

/-- A row of the invoices table (billing columns elided: the tools write
    only constants there). -/
structure Invoice where
  id : Int
  customerId : Int
  invoiceDate : Str
  total : ℚ
  deriving DecidableEq, Repr

/-- A row of the invoice line-items table. -/
structure InvoiceLine where
  invoiceId : Int
  trackId : Int
  unitPrice : ℚ
  quantity : Int
  deriving DecidableEq, Repr

/-- The tables of the working copy touched by the claimed tools; tracks
    is kept as its set of ids, used only through the InvoiceLine.TrackId
    foreign key (PRAGMA foreign_keys=ON). -/
structure ChinookDB where
  customers : List Customer
  invoices : List Invoice
  invoice_items : List InvoiceLine
  tracks : List Int
  deriving DecidableEq, Repr

/-- Character class of the e-mail regex pieces: anything but whitespace
    and the at sign. -/
def emailBodyChar (c : Char) : Bool :=
  !isPySpace c && !(c = '@')

/-- Full-string match of the e-mail pattern body
    (one-or-more body chars, at sign, one-or-more body chars, dot,
    one-or-more body chars): exactly one at sign, no whitespace, a
    non-empty local part and a domain with a dot strictly inside it
    (the character class includes the dot, so any interior dot
    qualifies). -/
def emailCore (s : Str) : Bool :=
  let lo := s.takeWhile (fun c => !(c = '@'))
  let dom := s.drop (lo.length + 1)
  s.count '@' == 1 && s.all (fun c => !isPySpace c) &&
    !lo.isEmpty && !dom.isEmpty && (dom.drop 1).dropLast.contains '.'

/-- tools.py _email_re checked with re.match: the pattern is anchored at
    both ends, but the end anchor also matches just before one trailing
    newline. -/
def emailOk (s : Str) : Bool :=
  emailCore s || (s.getLast? == some '\n' && emailCore s.dropLast)

/-- surface/tools.py update_customer_email: e-mail validation before the
    transaction, then a single UPDATE on the customers table setting
    Email for the rows whose CustomerId matches, returning the matched
    row count.  The UPDATE is translated as a map over the table. -/
def update_customer_email (db : ChinookDB) (cid : Int) (newEmail : Str) :
    TxRun ChinookDB PyErr Nat :=
  if !emailOk newEmail then ⟨[], db, .error .valueError⟩
  else
    transaction db fun d =>
      ({ d with
          customers := d.customers.map fun c =>
            if c.id = cid then { c with email := newEmail } else c },
        .ok (d.customers.filter (fun c => c.id = cid)).length)

/-- C10: for a well-shaped e-mail the tool commits, returns the number
    of customer rows whose id matches (0, with no error, when none
    does), and changes nothing except the Email column of the matching
    rows: other columns, non-matching rows and the other tables are all
    untouched. -/
theorem update_customer_email_spec (db : ChinookDB) (cid : Int)
    (newEmail : Str) (h : emailOk newEmail = true) :
    ∃ db2,
      update_customer_email db cid newEmail =
        ⟨[.connect, .commit, .close], db2,
          .ok (db.customers.filter (fun c => c.id = cid)).length⟩ ∧
      ((∀ c ∈ db.customers, c.id ≠ cid) →
        (db.customers.filter (fun c => c.id = cid)).length = 0) ∧
      db2.invoices = db.invoices ∧
      db2.invoice_items = db.invoice_items ∧
      db2.tracks = db.tracks ∧
      db2.customers.length = db.customers.length ∧
      (∀ n (hn : n < db.customers.length)
          (hn2 : n < db2.customers.length),
        let c := db.customers.get ⟨n, hn⟩
        let c2 := db2.customers.get ⟨n, hn2⟩
        c2.id = c.id ∧ c2.firstName = c.firstName ∧
        c2.lastName = c.lastName ∧ c2.city = c.city ∧
        c2.country = c.country ∧
        (c.id ≠ cid → c2 = c) ∧ (c.id = cid → c2.email = newEmail)) := by
  refine ⟨{ db with
      customers := db.customers.map fun c =>
        if c.id = cid then { c with email := newEmail } else c }, ?_, ?_,
    rfl, rfl, rfl, by simp, ?_⟩
  · simp only [update_customer_email, h, Bool.not_true, Bool.false_eq_true,
      if_false, transaction]
  · intro hnone
    rw [List.length_eq_zero]
    rw [List.filter_eq_nil_iff]
    intro c hc
    simp [hnone c hc]
  · intro n hn hn2
    simp only [List.get_eq_getElem, List.getElem_map]
    by_cases hid : (db.customers[n]).id = cid
    · simp [hid]
    · simp [hid]

theorem update_customer_email_spec_witness :
    emailOk "ada@example.org".toList = true ∧
    ∃ db2,
      update_customer_email
          ⟨[⟨7, "Ada".toList, "L".toList, "old@example.org".toList,
              none, none⟩], [], [], []⟩ 7 "ada@example.org".toList =
        ⟨[.connect, .commit, .close], db2, .ok 1⟩ ∧
      db2.customers.length = 1 :=
  ⟨by decide, by
    obtain ⟨db2, h1, _, _, _, _, hlen, _⟩ := update_customer_email_spec
      ⟨[⟨7, "Ada".toList, "L".toList, "old@example.org".toList,
          none, none⟩], [], [], []⟩ 7 "ada@example.org".toList (by decide)
    refine ⟨db2, ?_, ?_⟩
    · have : ((⟨[⟨7, "Ada".toList, "L".toList, "old@example.org".toList,
          none, none⟩], [], [], []⟩ : ChinookDB).customers.filter
            (fun c => c.id = 7)).length = 1 := by decide
      rw [this] at h1
      exact h1
    · rw [hlen]
      rfl⟩

/-- Total invoiced amount for one customer id: the SUM of Invoice.Total
    over the LEFT JOIN group of that customer, with IFNULL turning the
    empty group into 0. -/
def invoiceTotalFor (db : ChinookDB) (cid : Int) : ℚ :=
  ((db.invoices.filter fun i => i.customerId = cid).map Invoice.total).sum

/-- One result row of top_customers. -/
structure TopCustomerRow where
  customer_id : Int
  first_name : Str
  last_name : Str
  email : Str
  total_spent : ℚ
  deriving DecidableEq, Repr

/-- The ORDER BY key of top_customers: TotalSpent descending, ties
    broken by CustomerId ascending. -/
def topOrder (a b : TopCustomerRow) : Prop :=
  b.total_spent < a.total_spent ∨
    (a.total_spent = b.total_spent ∧ a.customer_id ≤ b.customer_id)

instance : DecidableRel topOrder := fun a b =>
  inferInstanceAs (Decidable (b.total_spent < a.total_spent ∨
    (a.total_spent = b.total_spent ∧ a.customer_id ≤ b.customer_id)))

instance : IsTotal TopCustomerRow topOrder :=
  ⟨by
    intro a b
    rcases lt_trichotomy a.total_spent b.total_spent with h | h | h
    · exact Or.inr (Or.inl h)
    · rcases le_total a.customer_id b.customer_id with hid | hid
      · exact Or.inl (Or.inr ⟨h, hid⟩)
      · exact Or.inr (Or.inr ⟨h.symm, hid⟩)
    · exact Or.inl (Or.inl h)⟩

instance : IsTrans TopCustomerRow topOrder :=
  ⟨by
    intro a b c hab hbc
    rcases hab with h1 | ⟨h1, h1id⟩
    · rcases hbc with h2 | ⟨h2, h2id⟩
      · exact Or.inl (h2.trans h1)
      · exact Or.inl (by rw [← h2]; exact h1)
    · rcases hbc with h2 | ⟨h2, h2id⟩
      · exact Or.inl (by rw [h1]; exact h2)
      · exact Or.inr ⟨h1.trans h2, le_trans h1id h2id⟩⟩

/-- surface/tools.py top_customers: limit validation outside the
    transaction, then the aggregate query (LEFT JOIN, GROUP BY customer,
    ORDER BY total descending then id ascending, LIMIT), translated as
    map, sort and take. -/
def top_customers (db : ChinookDB) (limit : Int) :
    TxRun ChinookDB PyErr (List TopCustomerRow) :=
  if limit < 1 || limit > 100 then ⟨[], db, .error .valueError⟩
  else
    transaction db fun d =>
      (d, .ok ((List.insertionSort topOrder
        (d.customers.map fun c =>
          ⟨c.id, c.firstName, c.lastName, c.email,
            invoiceTotalFor d c.id⟩)).take limit.toNat))

/-- C7: a limit outside [1,100] is rejected with an input-validation
    error; otherwise the tool returns at most limit rows, sorted by
    total spent descending with ties broken by ascending customer id,
    each row carrying the sum of its customer's invoice totals, with
    customers lacking invoices appearing with total 0. -/
theorem top_customers_spec (db : ChinookDB) (limit : Int) :
    ((limit < 1 ∨ limit > 100) →
      top_customers db limit = ⟨[], db, .error .valueError⟩) ∧
    (1 ≤ limit → limit ≤ 100 → ∃ rows,
      top_customers db limit = ⟨[.connect, .commit, .close], db, .ok rows⟩ ∧
      rows.length ≤ limit.toNat ∧
      rows.Pairwise topOrder ∧
      (∀ r ∈ rows, ∃ c ∈ db.customers,
        r = ⟨c.id, c.firstName, c.lastName, c.email,
          invoiceTotalFor db c.id⟩) ∧
      (∀ r ∈ rows, (∀ i ∈ db.invoices, i.customerId ≠ r.customer_id) →
        r.total_spent = 0)) := by
  constructor
  · intro h
    have hc : (decide (limit < 1) || decide (limit > 100)) = true := by
      rcases h with h | h
      · simp [h]
      · simp [h]
    simp only [top_customers, hc, if_true]
  · intro h1 h2
    have hc : (decide (limit < 1) || decide (limit > 100)) = false := by
      simp [not_lt.mpr h1, not_lt.mpr h2]
    refine ⟨(List.insertionSort topOrder
      (db.customers.map fun c =>
        ⟨c.id, c.firstName, c.lastName, c.email,
          invoiceTotalFor db c.id⟩)).take limit.toNat, ?_, ?_, ?_, ?_, ?_⟩
    · simp only [top_customers, hc, Bool.false_eq_true, if_false, transaction]
    · exact List.length_take_le _ _
    · exact (List.sorted_insertionSort topOrder _).sublist
        (List.take_sublist _ _)
    · intro r hr
      have hr2 : r ∈ List.insertionSort topOrder
          (db.customers.map fun c =>
            ⟨c.id, c.firstName, c.lastName, c.email,
              invoiceTotalFor db c.id⟩) := List.mem_of_mem_take hr
      have hr3 := (List.mem_insertionSort topOrder).mp hr2
      obtain ⟨c, hc2, hc3⟩ := List.mem_map.mp hr3
      exact ⟨c, hc2, hc3.symm⟩
    · intro r hr hno
      have hr2 : r ∈ List.insertionSort topOrder
          (db.customers.map fun c =>
            ⟨c.id, c.firstName, c.lastName, c.email,
              invoiceTotalFor db c.id⟩) := List.mem_of_mem_take hr
      have hr3 := (List.mem_insertionSort topOrder).mp hr2
      obtain ⟨c, hc2, hc3⟩ := List.mem_map.mp hr3
      have hfil : db.invoices.filter (fun i => i.customerId = c.id) = [] := by
        rw [List.filter_eq_nil_iff]
        intro i hi
        have hcid : r.customer_id = c.id := by rw [← hc3]
        simp [hcid ▸ hno i hi]
      have : r.total_spent = invoiceTotalFor db c.id := by rw [← hc3]
      rw [this, invoiceTotalFor, hfil]
      rfl

/-- Two customers, one invoice of 5 for customer 2, used to exercise
    top_customers. -/
def topDemoDB : ChinookDB :=
  ⟨[⟨1, "A".toList, "A".toList, "a@x.io".toList, none, none⟩,
    ⟨2, "B".toList, "B".toList, "b@x.io".toList, none, none⟩],
   [⟨1, 2, "2024-01-01 00:00:00".toList, 5⟩], [], []⟩

theorem top_customers_spec_witness :
    top_customers topDemoDB 0 = ⟨[], topDemoDB, .error .valueError⟩ ∧
    ∃ rows,
      top_customers topDemoDB 5 =
        ⟨[.connect, .commit, .close], topDemoDB, .ok rows⟩ ∧
      rows.length ≤ (5 : Int).toNat ∧
      rows.Pairwise topOrder ∧
      (∀ r ∈ rows, ∃ c ∈ topDemoDB.customers,
        r = ⟨c.id, c.firstName, c.lastName, c.email,
          invoiceTotalFor topDemoDB c.id⟩) ∧
      (∀ r ∈ rows,
        (∀ i ∈ topDemoDB.invoices, i.customerId ≠ r.customer_id) →
        r.total_spent = 0) :=
  ⟨(top_customers_spec topDemoDB 0).1 (Or.inl (by decide)),
   (top_customers_spec topDemoDB 5).2 (by decide) (by decide)⟩

/-- One element of the items argument of create_invoice: a dict whose
    three expected keys may each be absent. -/
structure InvItem where
  track_id : Option Int
  unit_price : Option ℚ
  quantity : Option Int
  deriving DecidableEq, Repr

/-- The key-presence check of create_invoice. -/
def itemComplete (it : InvItem) : Bool :=
  it.track_id.isSome && it.unit_price.isSome && it.quantity.isSome

/-- The validation loop of create_invoice: first missing key or
    non-positive quantity raises ValueError. -/
def validateItems : List InvItem → Except PyErr Unit
  | [] => .ok ()
  | it :: rest =>
    if !itemComplete it then .error .valueError
    else if it.quantity.getD 0 ≤ 0 then .error .valueError
    else validateItems rest

/-- Total computed in the tool layer: sum of unit_price times quantity
    over the items. -/
def invTotal (items : List InvItem) : ℚ :=
  (items.map fun it =>
    it.unit_price.getD 0 * ((it.quantity.getD 0 : Int) : ℚ)).sum

/-- The line row inserted for one item. -/
def lineOf (iid : Int) (it : InvItem) : InvoiceLine :=
  ⟨iid, it.track_id.getD 0, it.unit_price.getD 0, it.quantity.getD 0⟩

/-- The rowid assigned to the inserted invoice header
    (cursor.lastrowid). -/
def nextInvoiceId (db : ChinookDB) : Int :=
  (db.invoices.map Invoice.id).foldr max 0 + 1

/-- The per-item INSERT loop of create_invoice; a line whose TrackId
    violates the foreign key (PRAGMA foreign_keys=ON) raises
    IntegrityError. -/
def insertLines : ChinookDB → Int → List InvItem → Except PyErr ChinookDB
  | d, _, [] => .ok d
  | d, iid, it :: rest =>
    if it.track_id.getD 0 ∈ d.tracks then
      insertLines
        { d with invoice_items := d.invoice_items ++ [lineOf iid it] }
        iid rest
    else .error .integrityError

/-- The body of create_invoice that runs inside the transaction: insert
    the header (CustomerId foreign key checked), then every line. -/
def createInvoiceTx (cid : Int) (now : Str) (items : List InvItem)
    (d : ChinookDB) : ChinookDB × Except PyErr (Int × ℚ) :=
  let total := invTotal items
  if d.customers.any fun c => c.id = cid then
    let iid := nextInvoiceId d
    let d1 := { d with invoices := d.invoices ++ [⟨iid, cid, now, total⟩] }
    match insertLines d1 iid items with
    | .ok d2 => (d2, .ok (iid, total))
    | .error e => (d1, .error e)
  else (d, .error .integrityError)

/-- surface/tools.py create_invoice: input validation before the
    transaction, then header and line inserts inside one transaction.
    The wall-clock date is passed in as now. -/
def create_invoice (db : ChinookDB) (cid : Int) (now : Str)
    (items : List InvItem) : TxRun ChinookDB PyErr (Int × ℚ) :=
  if items.isEmpty then ⟨[], db, .error .valueError⟩
  else
    match validateItems items with
    | .error e => ⟨[], db, .error e⟩
    | .ok _ => transaction db (createInvoiceTx cid now items)

theorem validateItems_ok_iff (items : List InvItem) :
    validateItems items = .ok () ↔
    ∀ it ∈ items, itemComplete it = true ∧ 0 < it.quantity.getD 0 := by
  induction items with
  | nil => simp [validateItems]
  | cons it rest ih =>
    by_cases h1 : itemComplete it = true
    · by_cases h2 : it.quantity.getD 0 ≤ 0
      · simp only [validateItems, h1, Bool.not_true, Bool.false_eq_true,
          if_false, if_pos h2, List.mem_cons]
        constructor
        · intro hv
          exact absurd hv (by simp)
        · intro hall
          have := (hall it (Or.inl rfl)).2
          omega
      · simp only [validateItems, h1, Bool.not_true, Bool.false_eq_true,
          if_false, if_neg h2, List.mem_cons]
        rw [ih]
        constructor
        · intro hall it2 hit2
          rcases hit2 with rfl | hmem
          · exact ⟨h1, by omega⟩
          · exact hall it2 hmem
        · intro hall it2 hmem
          exact hall it2 (Or.inr hmem)
    · have h1f : itemComplete it = false := Bool.eq_false_iff.mpr h1
      simp only [validateItems, h1f, Bool.not_false, if_true, List.mem_cons]
      constructor
      · intro hv
        exact absurd hv (by simp)
      · intro hall
        exact absurd (hall it (Or.inl rfl)).1 h1

theorem validateItems_ok_or_error (items : List InvItem) :
    validateItems items = .ok () ∨
    validateItems items = .error .valueError := by
  induction items with
  | nil => exact Or.inl rfl
  | cons it rest ih =>
    by_cases h1 : (!itemComplete it) = true
    · exact Or.inr (by simp [validateItems, h1])
    · by_cases h2 : it.quantity.getD 0 ≤ 0
      · refine Or.inr ?_
        simp only [validateItems]
        rw [if_neg h1, if_pos h2]
      · rcases ih with h | h
        · refine Or.inl ?_
          simp only [validateItems]
          rw [if_neg h1, if_neg h2]
          exact h
        · refine Or.inr ?_
          simp only [validateItems]
          rw [if_neg h1, if_neg h2]
          exact h

theorem insertLines_ok (iid : Int) (items : List InvItem)
    (d : ChinookDB) (h : ∀ it ∈ items, it.track_id.getD 0 ∈ d.tracks) :
    insertLines d iid items =
      .ok { d with
        invoice_items := d.invoice_items ++ items.map (lineOf iid) } := by
  induction items generalizing d with
  | nil => simp [insertLines]
  | cons it rest ih =>
    have hmem := h it (List.mem_cons_self it rest)
    simp only [insertLines, if_pos hmem]
    rw [ih { d with invoice_items := d.invoice_items ++ [lineOf iid it] }
      (fun it2 h2 => h it2 (List.mem_cons_of_mem _ h2))]
    simp [List.append_assoc]

theorem insertLines_error (iid : Int) (items : List InvItem)
    (d : ChinookDB) (h : ∃ it ∈ items, it.track_id.getD 0 ∉ d.tracks) :
    insertLines d iid items = .error .integrityError := by
  induction items generalizing d with
  | nil => simp at h
  | cons it rest ih =>
    by_cases hmem : it.track_id.getD 0 ∈ d.tracks
    · obtain ⟨it2, hit2, hnot⟩ := h
      rcases List.mem_cons.mp hit2 with rfl | hr
      · exact absurd hmem hnot
      · simp only [insertLines, if_pos hmem]
        exact ih _ ⟨it2, hr, hnot⟩
    · simp only [insertLines, if_neg hmem]

/-- C4: create_invoice rejects an empty item list, a missing key or a
    non-positive quantity with a validation error before the transaction
    opens; otherwise it computes the total in the tool layer, inserts
    one header row with that total plus one line row per item inside a
    single committed transaction, and when any insert fails the
    transaction rolls back so neither the header nor any line
    persists. -/
theorem create_invoice_spec (db : ChinookDB) (cid : Int) (now : Str)
    (items : List InvItem) :
    (items = [] →
      create_invoice db cid now items = ⟨[], db, .error .valueError⟩) ∧
    ((∃ it ∈ items, itemComplete it = false ∨ it.quantity.getD 0 ≤ 0) →
      create_invoice db cid now items = ⟨[], db, .error .valueError⟩) ∧
    (items ≠ [] →
      (∀ it ∈ items, itemComplete it = true ∧ 0 < it.quantity.getD 0) →
      (db.customers.any fun c => c.id = cid) = true →
      (∀ it ∈ items, it.track_id.getD 0 ∈ db.tracks) →
      create_invoice db cid now items =
        ⟨[.connect, .commit, .close],
         { db with
            invoices := db.invoices ++
              [⟨nextInvoiceId db, cid, now, invTotal items⟩],
            invoice_items := db.invoice_items ++
              items.map (lineOf (nextInvoiceId db)) },
         .ok (nextInvoiceId db, invTotal items)⟩) ∧
    (items ≠ [] →
      (∀ it ∈ items, itemComplete it = true ∧ 0 < it.quantity.getD 0) →
      ((db.customers.any fun c => c.id = cid) = false ∨
        ∃ it ∈ items, it.track_id.getD 0 ∉ db.tracks) →
      create_invoice db cid now items =
        ⟨[.connect, .rollback, .close], db, .error .integrityError⟩) := by
  refine ⟨?_, ?_, ?_, ?_⟩
  · intro h
    subst h
    rfl
  · rintro ⟨it, hit, hbad⟩
    have hie : items.isEmpty = false := by
      cases items with
      | nil => simp at hit
      | cons a l => rfl
    have hverr : validateItems items = .error .valueError := by
      rcases validateItems_ok_or_error items with h | h
      · exfalso
        have hall := (validateItems_ok_iff items).mp h
        rcases hbad with hb | hb
        · have := (hall it hit).1
          rw [hb] at this
          exact absurd this (by simp)
        · have := (hall it hit).2
          omega
      · exact h
    simp only [create_invoice, hie, Bool.false_eq_true, if_false, hverr]
  · intro hne hall hcust htracks
    have hie : items.isEmpty = false := by
      cases items with
      | nil => exact absurd rfl hne
      | cons a l => rfl
    have hval : validateItems items = .ok () :=
      (validateItems_ok_iff items).mpr hall
    have htx : createInvoiceTx cid now items db =
        ({ db with
            invoices := db.invoices ++
              [⟨nextInvoiceId db, cid, now, invTotal items⟩],
            invoice_items := db.invoice_items ++
              items.map (lineOf (nextInvoiceId db)) },
          .ok (nextInvoiceId db, invTotal items)) := by
      simp only [createInvoiceTx, if_pos hcust]
      rw [insertLines_ok (nextInvoiceId db) items
        { db with invoices := db.invoices ++
          [⟨nextInvoiceId db, cid, now, invTotal items⟩] }
        (fun it2 h2 => htracks it2 h2)]
    simp only [create_invoice, hie, Bool.false_eq_true, if_false, hval]
    simp [transaction, htx]
  · intro hne hall hfail
    have hie : items.isEmpty = false := by
      cases items with
      | nil => exact absurd rfl hne
      | cons a l => rfl
    have hval : validateItems items = .ok () :=
      (validateItems_ok_iff items).mpr hall
    rcases hfail with hcf | ⟨it, hit, hnot⟩
    · have htx : createInvoiceTx cid now items db =
          (db, .error .integrityError) := by
        simp only [createInvoiceTx]
        rw [if_neg (by rw [hcf]; simp)]
      simp only [create_invoice, hie, Bool.false_eq_true, if_false, hval]
      simp [transaction, htx]
    · by_cases hcust : (db.customers.any fun c => c.id = cid) = true
      · have htx : createInvoiceTx cid now items db =
            ({ db with invoices := db.invoices ++
                [⟨nextInvoiceId db, cid, now, invTotal items⟩] },
              .error .integrityError) := by
          simp only [createInvoiceTx, if_pos hcust]
          rw [insertLines_error (nextInvoiceId db) items
            { db with invoices := db.invoices ++
              [⟨nextInvoiceId db, cid, now, invTotal items⟩] }
            ⟨it, hit, hnot⟩]
        simp only [create_invoice, hie, Bool.false_eq_true, if_false, hval]
        simp [transaction, htx]
      · have htx : createInvoiceTx cid now items db =
            (db, .error .integrityError) := by
          simp only [createInvoiceTx]
          rw [if_neg hcust]
        simp only [create_invoice, hie, Bool.false_eq_true, if_false, hval]
        simp [transaction, htx]

/-- One customer, one known track, used to exercise create_invoice. -/
def invoiceDemoDB : ChinookDB :=
  ⟨[⟨1, "A".toList, "A".toList, "a@x.io".toList, none, none⟩], [], [], [10]⟩

theorem create_invoice_spec_witness :
    create_invoice invoiceDemoDB 1 "2024-01-01 00:00:00".toList [] =
      ⟨[], invoiceDemoDB, .error .valueError⟩ ∧
    create_invoice invoiceDemoDB 1 "2024-01-01 00:00:00".toList
        [⟨some 10, some 2, some 0⟩] =
      ⟨[], invoiceDemoDB, .error .valueError⟩ ∧
    create_invoice invoiceDemoDB 1 "2024-01-01 00:00:00".toList
        [⟨some 10, some 2, some 3⟩] =
      ⟨[.connect, .commit, .close],
       { invoiceDemoDB with
          invoices := invoiceDemoDB.invoices ++
            [⟨nextInvoiceId invoiceDemoDB, 1,
              "2024-01-01 00:00:00".toList,
              invTotal [⟨some 10, some 2, some 3⟩]⟩],
          invoice_items := invoiceDemoDB.invoice_items ++
            [⟨some 10, some 2, some 3⟩].map
              (lineOf (nextInvoiceId invoiceDemoDB)) },
       .ok (nextInvoiceId invoiceDemoDB,
        invTotal [⟨some 10, some 2, some 3⟩])⟩ ∧
    create_invoice invoiceDemoDB 1 "2024-01-01 00:00:00".toList
        [⟨some 10, some 2, some 3⟩, ⟨some 99, some 2, some 1⟩] =
      ⟨[.connect, .rollback, .close], invoiceDemoDB,
        .error .integrityError⟩ :=
  ⟨(create_invoice_spec invoiceDemoDB 1 "2024-01-01 00:00:00".toList []).1 rfl,
   (create_invoice_spec invoiceDemoDB 1 "2024-01-01 00:00:00".toList
      [⟨some 10, some 2, some 0⟩]).2.1
      ⟨⟨some 10, some 2, some 0⟩, by decide, by decide⟩,
   (create_invoice_spec invoiceDemoDB 1 "2024-01-01 00:00:00".toList
      [⟨some 10, some 2, some 3⟩]).2.2.1 (by decide) (by decide) (by decide)
      (by decide),
   (create_invoice_spec invoiceDemoDB 1 "2024-01-01 00:00:00".toList
      [⟨some 10, some 2, some 3⟩, ⟨some 99, some 2, some 1⟩]).2.2.2
      (by decide) (by decide)
      (Or.inr ⟨⟨some 99, some 2, some 1⟩, by decide, by decide⟩)⟩

/-- Python str.lower leaves whitespace characters unchanged. -/
theorem toLower_of_space {c : Char} (h : isPySpace c = true) :
    Char.toLower c = c := by
  simp only [isPySpace, Bool.or_eq_true, decide_eq_true_iff] at h
  rcases h with ((((h | h) | h) | h) | h) | h <;> subst h <;> decide

theorem dropWhile_append_all {p : Char → Bool} (ws t : Str)
    (h : ws.all p = true) :
    (ws ++ t).dropWhile p = t.dropWhile p := by
  induction ws with
  | nil => rfl
  | cons a l ih =>
    rw [List.all_cons, Bool.and_eq_true] at h
    rw [List.cons_append, List.dropWhile_cons, if_pos h.1]
    exact ih h.2

theorem keywordMatch_single_iff (kw s : Str) (hne : kw ≠ [])
    (hhead : isPySpace (kw.headD 'a') = false) :
    (lowerStr ((s.dropWhile isPySpace).take kw.length) = kw ∧
     atBoundary ((s.dropWhile isPySpace).drop kw.length) = true) ↔
    matchesKeyword kw s := by
  constructor
  · rintro ⟨h1, h2⟩
    refine ⟨s.takeWhile isPySpace,
      (s.dropWhile isPySpace).take kw.length,
      (s.dropWhile isPySpace).drop kw.length, ?_, ?_, h1, h2⟩
    · rw [List.append_assoc, List.take_append_drop,
        List.takeWhile_append_dropWhile]
    · rw [List.all_eq_true]
      intro c hc
      exact List.mem_takeWhile_imp hc
  · rintro ⟨ws, kwp, rest, rfl, hall, hlow, hb⟩
    have hkwplen : kwp.length = kw.length := by
      rw [← hlow, lowerStr, List.length_map]
    have hkwpne : kwp ≠ [] := by
      intro hc
      rw [hc] at hlow
      exact hne hlow.symm
    obtain ⟨c, cs, rfl⟩ := List.exists_cons_of_ne_nil hkwpne
    have hc : isPySpace c = false := by
      by_contra hcc
      have hcc2 : isPySpace c = true := by
        cases hx : isPySpace c with
        | false => exact absurd hx hcc
        | true => rfl
      have hkwhead : kw.headD 'a' = Char.toLower c := by
        rw [← hlow]
        rfl
      rw [hkwhead, toLower_of_space hcc2] at hhead
      rw [hcc2] at hhead
      exact absurd hhead (by simp)
    have hdw : ((ws ++ (c :: cs ++ rest)).dropWhile isPySpace) =
        (c :: cs) ++ rest := by
      rw [dropWhile_append_all ws (c :: cs ++ rest) hall]
      rw [List.cons_append, List.dropWhile_cons, if_neg (by rw [hc]; simp)]
    have hsplit : ws ++ (c :: cs) ++ rest = ws ++ (c :: cs ++ rest) := by
      rw [List.append_assoc, List.cons_append]
    rw [hsplit, hdw, ← hkwplen]
    rw [show ((c :: cs) ++ rest : Str).take (c :: cs).length = c :: cs from
      List.take_left _ _]
    rw [show ((c :: cs) ++ rest : Str).drop (c :: cs).length = rest from
      List.drop_left _ _]
    exact ⟨hlow, hb⟩

theorem keywordMatch_iff (kws : List Str) (s : Str)
    (hk : ∀ kw ∈ kws, kw ≠ [] ∧ isPySpace (kw.headD 'a') = false) :
    keywordMatch kws s = true ↔ ∃ kw ∈ kws, matchesKeyword kw s := by
  rw [keywordMatch, List.any_eq_true]
  constructor
  · rintro ⟨kw, hmem, hcond⟩
    rw [Bool.and_eq_true, decide_eq_true_iff] at hcond
    exact ⟨kw, hmem, (keywordMatch_single_iff kw s (hk kw hmem).1
      (hk kw hmem).2).mp hcond⟩
  · rintro ⟨kw, hmem, hmk⟩
    refine ⟨kw, hmem, ?_⟩
    rw [Bool.and_eq_true, decide_eq_true_iff]
    exact (keywordMatch_single_iff kw s (hk kw hmem).1 (hk kw hmem).2).mpr hmk

/-- C6 counterexample: the single-statement string "selection" begins
    (case-insensitively) with "select", yet is_select is false — the
    classifier regex also demands a word boundary after the keyword, so
    beginning with the keyword alone does not make a string Read. -/
theorem keyword_classifier_counterexample :
    ("selection".toList.take 6).map Char.toLower = "select".toList ∧
    singleStatement "selection".toList = true ∧
    is_select "selection".toList = false ∧
    is_write "selection".toList = false := by
  refine ⟨by decide, by decide, by decide, by decide⟩

/-- C6 (amended): after optional leading whitespace, a string whose
    leading keyword is a case variant of select followed by a word
    boundary, and which contains no interior statement separator, is
    classified Read; with insert, update, delete or replace in that
    position, Write; a string failing the keyword-and-boundary shape or
    the single-statement test is neither. -/
theorem keyword_classifier_spec (s : Str) :
    (is_select s = true ↔
      (matchesKeyword "select".toList s ∧ singleStatement s = true)) ∧
    (is_write s = true ↔
      ((matchesKeyword "insert".toList s ∨ matchesKeyword "update".toList s ∨
        matchesKeyword "delete".toList s ∨ matchesKeyword "replace".toList s) ∧
       singleStatement s = true)) := by
  constructor
  · rw [is_select, Bool.and_eq_true,
      keywordMatch_iff selectKws s (by decide)]
    constructor
    · rintro ⟨⟨kw, hmem, hmk⟩, hss⟩
      rw [selectKws, List.mem_singleton] at hmem
      subst hmem
      exact ⟨hmk, hss⟩
    · rintro ⟨hmk, hss⟩
      exact ⟨⟨"select".toList, by rw [selectKws]; exact List.mem_singleton_self _, hmk⟩, hss⟩
  · rw [is_write, Bool.and_eq_true,
      keywordMatch_iff writeKws s (by decide)]
    constructor
    · rintro ⟨⟨kw, hmem, hmk⟩, hss⟩
      rw [writeKws] at hmem
      simp only [List.mem_cons, List.not_mem_nil, or_false] at hmem
      rcases hmem with rfl | rfl | rfl | rfl
      · exact ⟨Or.inl hmk, hss⟩
      · exact ⟨Or.inr (Or.inl hmk), hss⟩
      · exact ⟨Or.inr (Or.inr (Or.inl hmk)), hss⟩
      · exact ⟨Or.inr (Or.inr (Or.inr hmk)), hss⟩
    · rintro ⟨hmk, hss⟩
      rcases hmk with h | h | h | h
      · exact ⟨⟨"insert".toList, by rw [writeKws]; simp, h⟩, hss⟩
      · exact ⟨⟨"update".toList, by rw [writeKws]; simp, h⟩, hss⟩
      · exact ⟨⟨"delete".toList, by rw [writeKws]; simp, h⟩, hss⟩
      · exact ⟨⟨"replace".toList, by rw [writeKws]; simp, h⟩, hss⟩

theorem keyword_classifier_spec_witness :
    is_select " SELECT 1".toList = true ∧
    is_write "DELETE from t".toList = true :=
  ⟨(keyword_classifier_spec " SELECT 1".toList).1.mpr
    ⟨⟨" ".toList, "SELECT".toList, " 1".toList,
      by decide, by decide, by decide, by decide⟩, by decide⟩,
   (keyword_classifier_spec "DELETE from t".toList).2.mpr
    ⟨Or.inr (Or.inr (Or.inl ⟨[], "DELETE".toList, " from t".toList,
      by decide, by decide, by decide, by decide⟩)), by decide⟩⟩
